import Mathlib

/-!
# Verification of the RRT planner (`rrt_planner.py`)

Shallow embedding of the Rapidly-exploring Random Tree planner and proofs of
the specification claims about it.

Modelling conventions:
* Python `State` objects carry a mutable `parent` reference and a mutable
  `children` list; object references are modelled as indices (ids) into an
  arena (a `List State`), so mutation becomes functional update of the arena.
* `numpy` floating-point arithmetic is modelled with real numbers (`ℝ`), and
  Python `int()` as truncation toward zero.
* Python `assert` failures and crashes (attribute access on `None`,
  non-terminating loops) are modelled by an `Option` result, `none` meaning
  the call does not return normally.
* The random stream produced by `sample_state` is modelled as an explicit
  function from the iteration index to the sampled coordinates.
-/

namespace RRT

/-- Python class `State`: a 2D state; `x` is the column and `y` the row on the
image, both integers. `parent` is a reference to the parent `State` object
(modelled as an arena id) or `None`; `children` is the list of child
references. -/
structure State where
  x : ℤ
  y : ℤ
  parent : Option Nat
  children : List Nat
deriving DecidableEq

/-- Method `State.euclidean_distance`: `sqrt((state.x - self.x)**2 +
(state.y - self.y)**2)` with `self = s1` and `state = s2`. -/
noncomputable def euclidean_distance (s1 s2 : State) : ℝ :=
  Real.sqrt (((s2.x - s1.x : ℤ) : ℝ) ^ 2 + ((s2.y - s1.y : ℤ) : ℝ) ^ 2)

/-- Python `int()` applied to a float: truncation toward zero. -/
noncomputable def int_trunc (r : ℝ) : ℤ :=
  if 0 ≤ r then ⌊r⌋ else ⌈r⌉

/-- The occupancy grid of `RRTPlanner`: `rows × cols` cells; `occ r c` is the
value of `self.occ_grid[r, c]` (1 iff occupied in the source construction; we
model arbitrary `ℕ` entries, freeness tests compare with 0 exactly as the
source does). -/
structure Grid where
  rows : ℕ
  cols : ℕ
  occ : ℕ → ℕ → ℕ

/-- Index list selected by the Python slice `a[start:stop]` (step 1) on an
axis of length `n`: a negative bound counts from the end (one addition of
`n`), then bounds are clamped into `[0, n]`; the selection is empty when the
normalized start is not below the normalized stop. `numpy` basic slicing
follows the same rules per axis. -/
def pySlice (start stop : ℤ) (n : ℕ) : List ℕ :=
  let norm : ℤ → ℤ := fun i => if i < 0 then i + n else i
  let clamp : ℤ → ℕ := fun i => (min (max i 0) (n : ℤ)).toNat
  let a := clamp (norm start)
  let b := clamp (norm stop)
  (List.range (b - a)).map (· + a)

/-- Method `RRTPlanner.state_is_free`: tests whether every cell of
`occ_grid[state.y - 5 : state.y + 5, state.x - 5 : state.x + 5]` equals 0
(vacuously true on an empty selection, exactly as `numpy`'s `.all()`). -/
def state_is_free (g : Grid) (state : State) : Bool :=
  (pySlice (state.y - 5) (state.y + 5) g.rows).all fun r =>
    (pySlice (state.x - 5) (state.x + 5) g.cols).all fun c =>
      g.occ r c == 0

/-- Loop of `RRTPlanner._follow_parent_pointers`: `curr_ptr` walks parent
references while accumulating `path`; `fuel` bounds the walk, `none` models
the Python loop failing to terminate (cyclic chain) or a dangling reference. -/
def follow_parent_pointers_aux (arena : List State) :
    ℕ → Option Nat → List Nat → Option (List Nat)
  | _, none, path => some path.reverse
  | 0, some _, _ => none
  | fuel + 1, some curr, path =>
    match arena[curr]? with
    | none => none
    | some node => follow_parent_pointers_aux arena fuel node.parent (path ++ [curr])

/-- Method `RRTPlanner._follow_parent_pointers(state)`: `path` starts as
`[state]`, then the while-loop appends `curr_ptr` (starting again at `state`)
and moves to the parent until `None`; the result is the reversed `path`. A
fuel of `arena.length + 1` is enough for every terminating chain since a
terminating walk visits each arena node at most once. -/
def follow_parent_pointers (arena : List State) (state : Nat) : Option (List Nat) :=
  follow_parent_pointers_aux arena (arena.length + 1) (some state) [state]

/-- The walk of `_follow_parent_pointers` with an initially empty
accumulator: this collects each node of the parent chain exactly once, in
encountered order, and reverses the result. This is the behavior the
specification describes for the path extractor. -/
def follow_parent_pointers_once (arena : List State) (state : Nat) : Option (List Nat) :=
  follow_parent_pointers_aux arena (arena.length + 1) (some state) []

/-- Python `tree_nodes.add(s_new)` where `tree_nodes` is a `set` of `State`s
and `State` equality/hashing is by coordinates only: the set is modelled as an
insertion-ordered duplicate-free list of arena ids; adding a state whose
coordinates are already present leaves the set unchanged. -/
def tree_add (arena : List State) (tree : List Nat) (new_id : Nat) : List Nat :=
  match arena[new_id]? with
  | none => tree
  | some s =>
    if tree.any (fun id =>
        match arena[id]? with
        | none => false
        | some t => t.x == s.x && t.y == s.y)
    then tree
    else tree ++ [new_id]

/-- Helper function `steer_algorithm(s1, s2, height, max_radius)` of the
source: steer from `s1` toward `s2` by `max_radius`, flipping the row axis
(`y1 = height - s1.y` etc.) so that angle computation happens in a standard
mathematical frame, special-casing `dx == 0` via the sign of the real (screen)
vertical displacement, and correcting `arctan`'s two-quadrant range when `dx`
is negative by adding or subtracting pi (the source computes a first, unused
`arctan(dy / dx)` before the correction; being dead code in the `dx < 0` path
it is omitted here). Python `int()` is `int_trunc`. -/
noncomputable def steer_algorithm (s1 s2 : State) (height : ℤ) (max_radius : ℝ) :
    ℤ × ℤ :=
  let y1 : ℤ := height - s1.y
  let y2 : ℤ := height - s2.y
  let real_dy : ℤ := s2.y - s1.y
  let dx : ℤ := s2.x - s1.x
  let dy : ℤ := y2 - y1
  if dx = 0 then
    let x : ℤ := s1.x
    let y : ℝ := (y1 : ℝ) + (-(Int.sign real_dy) : ℤ) * max_radius
    (x, int_trunc ((height : ℝ) - y))
  else
    let theta : ℝ :=
      if dx < 0 then
        let dx_flip : ℤ := -dx
        let t := Real.arctan ((dy : ℝ) / (dx_flip : ℝ))
        if dy < 0 then -Real.pi - t else Real.pi - t
      else
        Real.arctan ((dy : ℝ) / (dx : ℝ))
    let dy2 : ℝ := Real.sin theta * max_radius
    let dx2 : ℝ := Real.cos theta * max_radius
    let x : ℤ := int_trunc ((s1.x : ℝ) + dx2)
    let y : ℤ := int_trunc ((y1 : ℝ) + dy2)
    (x, height - y)

/-- Method `RRTPlanner.steer_towards(s_nearest, s_rand, max_radius)`: if
`s_rand` is within `max_radius` of `s_nearest` the new coordinates are those
of `s_rand`, otherwise `steer_algorithm` is applied with
`height = self.world.shape[0] = g.rows`. The source wraps the coordinates in
`State(x, y, s_nearest)`; the parent link to `s_nearest` is attached at the
call site in `plan`, where the arena id of `s_nearest` is known. -/
noncomputable def steer_towards (g : Grid) (s_nearest s_rand : State)
    (max_radius : ℝ) : ℤ × ℤ :=
  if euclidean_distance s_rand s_nearest ≤ max_radius then
    (s_rand.x, s_rand.y)
  else
    steer_algorithm s_nearest s_rand (g.rows : ℤ) max_radius

/-- Method `RRTPlanner.find_closest_state(tree_nodes, state)`: linear scan
keeping the strictly smallest distance seen so far; `min_dist` starts at
infinity, modelled by the `none` accumulator (the first node always becomes
the candidate, matching `dist < inf`). The Python version iterates over
`State` objects obtained from `list(tree_nodes)`; here the tree is the
insertion-ordered list of arena ids and the returned value is the id of the
closest node. A dangling id (impossible for well-formed trees) is skipped. -/
noncomputable def find_closest_state (arena : List State) (tree_nodes : List Nat)
    (state : State) : Option Nat :=
  (tree_nodes.foldl
    (fun acc id =>
      match arena[id]? with
      | none => acc
      | some node =>
        let dist := euclidean_distance node state
        match acc with
        | none => some (id, dist)
        | some (_, min_dist) =>
          if dist < min_dist then some (id, dist) else acc)
    none).map Prod.fst

/-- Method `RRTPlanner.path_is_obstacle_free(s_from, s_to)`: `none` models
the failed `assert state_is_free(s_from)`; otherwise the result is `False` if
`s_to` is not free, else every one of `max_checks = 10` interpolated points at
distance `float(i) / 10 * dist(s_from, s_to)` along the line (computed by
`steer_algorithm`) must be free. `List.all` returns false as soon as a sample
fails, exactly like the source's early `return False`. The interpolated
`State(x, y, s_from)` only has its coordinates inspected, so the parent
reference is irrelevant and modelled as `none`. -/
noncomputable def path_is_obstacle_free (g : Grid) (s_from s_to : State) :
    Option Bool :=
  if state_is_free g s_from = false then none
  else if state_is_free g s_to = false then some false
  else
    some ((List.range 10).all fun i =>
      let distance : ℝ := (i : ℝ) / 10 * euclidean_distance s_from s_to
      let p := steer_algorithm s_from s_to (g.rows : ℤ) distance
      state_is_free g ⟨p.1, p.2, none, []⟩)

/-- Method `RRTPlanner.sample_state()`: the two `np.random.randint` draws of
iteration `i` are modelled by the stream `rng`; the sampled state has no
parent and no children. The bound constraints (`x < cols`, `y < rows`) are
properties of the stream, not enforced here, exactly as the source trusts
`np.random.randint`. -/
def sample_state (rng : ℕ → ℤ × ℤ) (i : ℕ) : State :=
  ⟨(rng i).1, (rng i).2, none, []⟩

/-- Everything observable about one `plan` run: the final arena (object
heap), the final `tree_nodes` set, the final value of the local variable
`plan`, the value actually returned by the method (`ret`), whether the
goal-reached break was taken, and the final `step_count`. -/
structure PlanResult where
  arena : List State
  tree_nodes : List Nat
  plan : List Nat
  ret : List Nat
  success : Bool
  step_count : ℕ
deriving DecidableEq

/-- Loop body of `RRTPlanner.plan` (`for step in range(max_num_steps)`),
recursing on the remaining iteration budget. Each iteration: draw `s_rand`,
find the nearest tree node, steer toward the sample, and if the edge is
obstacle-free allocate `s_new` (parented at the nearest node), add it to the
set, append it to the nearest node's children, and on reaching the goal
radius set the goal's parent, extract the path into the local `plan` and
break. Visualization calls (`cv2`) are side effects with no bearing on the
result and are not modelled. `none` models a crash (failed assert inside
`path_is_obstacle_free`, or `find_closest_state` returning `None` on an empty
tree and the subsequent attribute error). -/
noncomputable def plan_loop (g : Grid) (start_id dest_id : Nat)
    (max_steering_radius dest_reached_radius : ℝ) (rng : ℕ → ℤ × ℤ) :
    ℕ → ℕ → List State → List Nat → Option PlanResult
  | 0, step_count, arena, tree =>
    some ⟨arena, tree, [start_id], [start_id], false, step_count⟩
  | fuel + 1, step_count, arena, tree =>
    let step_count' := step_count + 1
    let s_rand := sample_state rng step_count
    match find_closest_state arena tree s_rand with
    | none => none
    | some nearest_id =>
      match arena[nearest_id]? with
      | none => none
      | some s_nearest =>
        let c := steer_towards g s_nearest s_rand max_steering_radius
        let s_new : State := ⟨c.1, c.2, some nearest_id, []⟩
        match path_is_obstacle_free g s_nearest s_new with
        | none => none
        | some false =>
          plan_loop g start_id dest_id max_steering_radius dest_reached_radius rng
            fuel step_count' arena tree
        | some true =>
          let new_id := arena.length
          let arena1 := arena ++ [s_new]
          let tree1 := tree_add arena1 tree new_id
          let arena2 := arena1.set nearest_id
            { s_nearest with children := s_nearest.children ++ [new_id] }
          match arena2[dest_id]? with
          | none => none
          | some dest_state =>
            if euclidean_distance s_new dest_state < dest_reached_radius then
              let arena3 := arena2.set dest_id { dest_state with parent := some new_id }
              match follow_parent_pointers arena3 dest_id with
              | none => none
              | some p => some ⟨arena3, tree1, p, [start_id], true, step_count'⟩
            else
              plan_loop g start_id dest_id max_steering_radius dest_reached_radius rng
                fuel step_count' arena2 tree1

/-- Method `RRTPlanner.plan(start_state, dest_state, max_num_steps,
max_steering_radius, dest_reached_radius)`: asserts that both endpoints are
free (`none` on failure), initializes `tree_nodes = {start_state}` and the
local `plan = [start_state]`, then runs the iteration loop. The caller's
`start_state` and `dest_state` objects live in the initial arena at
`start_id` and `dest_id`. Whatever happens, the source's final statement is
`return [start_state]`. -/
noncomputable def plan (g : Grid) (arena0 : List State) (start_id dest_id : Nat)
    (max_num_steps : ℕ) (max_steering_radius dest_reached_radius : ℝ)
    (rng : ℕ → ℤ × ℤ) : Option PlanResult :=
  match arena0[start_id]?, arena0[dest_id]? with
  | some start_state, some dest_state =>
    if state_is_free g start_state = false then none
    else if state_is_free g dest_state = false then none
    else
      plan_loop g start_id dest_id max_steering_radius dest_reached_radius rng
        max_num_steps 0 arena0 [start_id]
  | _, _ => none

/-- Grid `g` with cell `(r0, c0)` additionally marked occupied. -/
def occupy (g : Grid) (r0 c0 : ℕ) : Grid :=
  ⟨g.rows, g.cols, fun r c => if r = r0 ∧ c = c0 then 1 else g.occ r c⟩

/-- The state sampled by `path_is_obstacle_free` at check index `i`: the
point at `float(i) / max_checks * dist(s_from, s_to)` along the line from
`s_from` to `s_to`, obtained through the geometry helper `steer_algorithm`. -/
noncomputable def interpolated_sample (g : Grid) (s_from s_to : State) (i : ℕ) : State :=
  let distance : ℝ := (i : ℝ) / 10 * euclidean_distance s_from s_to
  let p := steer_algorithm s_from s_to (g.rows : ℤ) distance
  ⟨p.1, p.2, none, []⟩

/-- Well-formedness of the tree held in `tree_nodes`: every member id is a
live arena node and is either a root (no parent) or has a parent that is
itself a member of the set with a strictly smaller arena id. Since ids are
allocation-ordered, the strict decrease of ids along parent links makes every
parent chain acyclic. -/
def TreeWF (arena : List State) (tree : List Nat) : Prop :=
  ∀ id ∈ tree, ∃ n : State, arena[id]? = some n ∧
    (n.parent = none ∨ ∃ p, p ∈ tree ∧ p < id ∧ n.parent = some p)

/-- Concrete 30-by-30 world whose occupancy grid is everywhere free. -/
def world30 : Grid := ⟨30, 30, fun _ _ => 0⟩

/-- The state at (15, 15) with no parent: used as both start and goal of the
concrete run below. -/
def S15 : State := ⟨15, 15, none, []⟩

/-- Initial arena of the concrete run: the caller's start object (id 0) and
goal object (id 1), both at (15, 15). -/
def arenaInit : List State := [S15, S15]

/-- A random stream that always samples (15, 15). -/
def rng15 : ℕ → ℤ × ℤ := fun _ => (15, 15)

/-- The outcome of `plan` on `world30` from `arenaInit` with one iteration,
steering radius 10 and goal radius 5 under `rng15`: the first sample lands on
the start, a node (id 2) is inserted at (15, 15) parented at the start, the
set does not grow (coordinate-equality deduplication), the goal (id 1) gets
parent 2, the extracted path is [0, 2, 1, 1] - and the method nevertheless
returns `[start]`. -/
def trace1Res : PlanResult :=
  ⟨[⟨15, 15, none, [2]⟩, ⟨15, 15, some 2, []⟩, ⟨15, 15, some 0, []⟩],
   [0], [0, 2, 1, 1], [0], true, 1⟩

/-! ## Elementary facts about Python slices and the freeness test -/

theorem mem_pySlice_of_bounds {start stop : ℤ} {n : ℕ}
    (h0 : 0 ≤ start) (hss : start ≤ stop) (h1 : stop ≤ (n : ℤ)) (r : ℕ) :
    r ∈ pySlice start stop n ↔ start ≤ (r : ℤ) ∧ (r : ℤ) < stop := by
  unfold pySlice
  simp only [List.mem_map, List.mem_range]
  have hnorm1 : ¬ start < 0 := not_lt.mpr h0
  have hnorm2 : ¬ stop < 0 := not_lt.mpr (le_trans h0 hss)
  simp only [hnorm1, hnorm2, if_false]
  have ha : min (max start 0) (n : ℤ) = start := by
    rw [max_eq_left h0, min_eq_left (le_trans hss h1)]
  have hb : min (max stop 0) (n : ℤ) = stop := by
    rw [max_eq_left (le_trans h0 hss), min_eq_left h1]
  rw [ha, hb]
  constructor
  · rintro ⟨k, hk, rfl⟩
    push_cast
    omega
  · rintro ⟨hr1, hr2⟩
    refine ⟨r - start.toNat, ?_, ?_⟩ <;> omega

theorem pySlice_empty_low {x : ℤ} {n : ℕ}
    (h0 : 0 ≤ x) (h5 : x < 5) (hn : 10 ≤ n) :
    pySlice (x - 5) (x + 5) n = [] := by
  unfold pySlice
  have hneg : x - 5 < 0 := by omega
  have hpos : ¬ x + 5 < 0 := by omega
  simp only [hneg, if_true, hpos, if_false]
  have ha : min (max (x - 5 + n) 0) (n : ℤ) = x - 5 + n := by
    rw [max_eq_left (by omega), min_eq_left (by omega)]
  have hb : min (max (x + 5) 0) (n : ℤ) = x + 5 := by
    rw [max_eq_left (by omega), min_eq_left (by omega)]
  rw [ha, hb]
  have : (x + 5).toNat - (x - 5 + n).toNat = 0 := by omega
  rw [this]
  simp

theorem state_is_free_iff_forall (g : Grid) (s : State) :
    state_is_free g s = true ↔
      ∀ r ∈ pySlice (s.y - 5) (s.y + 5) g.rows,
        ∀ c ∈ pySlice (s.x - 5) (s.x + 5) g.cols, g.occ r c = 0 := by
  unfold state_is_free
  simp [List.all_eq_true]

/-- C4. For a point whose 10-by-10 neighborhood window (rows `[y-5, y+5)`,
columns `[x-5, x+5)`, matching the source slice `[y-5:y+5, x-5:x+5]`) lies
entirely inside the grid, `state_is_free` returns true iff the whole window
is unoccupied, and additionally occupying any single cell of that window
flips the result to false. -/
theorem C4_state_is_free_window (g : Grid) (s : State)
    (hx5 : 5 ≤ s.x) (hxc : s.x + 5 ≤ (g.cols : ℤ))
    (hy5 : 5 ≤ s.y) (hyr : s.y + 5 ≤ (g.rows : ℤ)) :
    (state_is_free g s = true ↔
      ∀ r c : ℕ, s.y - 5 ≤ (r : ℤ) → (r : ℤ) < s.y + 5 →
        s.x - 5 ≤ (c : ℤ) → (c : ℤ) < s.x + 5 → g.occ r c = 0) ∧
    (∀ r0 c0 : ℕ, s.y - 5 ≤ (r0 : ℤ) → (r0 : ℤ) < s.y + 5 →
        s.x - 5 ≤ (c0 : ℤ) → (c0 : ℤ) < s.x + 5 →
        state_is_free (occupy g r0 c0) s = false) := by
  have hrow : ∀ r : ℕ, r ∈ pySlice (s.y - 5) (s.y + 5) g.rows ↔
      s.y - 5 ≤ (r : ℤ) ∧ (r : ℤ) < s.y + 5 :=
    mem_pySlice_of_bounds (by omega) (by omega) hyr
  have hcol : ∀ c : ℕ, c ∈ pySlice (s.x - 5) (s.x + 5) g.cols ↔
      s.x - 5 ≤ (c : ℤ) ∧ (c : ℤ) < s.x + 5 :=
    mem_pySlice_of_bounds (by omega) (by omega) hxc
  have main : ∀ g' : Grid, g'.rows = g.rows → g'.cols = g.cols →
      (state_is_free g' s = true ↔
        ∀ r c : ℕ, s.y - 5 ≤ (r : ℤ) → (r : ℤ) < s.y + 5 →
          s.x - 5 ≤ (c : ℤ) → (c : ℤ) < s.x + 5 → g'.occ r c = 0) := by
    intro g' hr hc
    rw [state_is_free_iff_forall, hr, hc]
    constructor
    · intro h r c h1 h2 h3 h4
      exact h r ((hrow r).mpr ⟨h1, h2⟩) c ((hcol c).mpr ⟨h3, h4⟩)
    · intro h r hrmem c hcmem
      obtain ⟨h1, h2⟩ := (hrow r).mp hrmem
      obtain ⟨h3, h4⟩ := (hcol c).mp hcmem
      exact h r c h1 h2 h3 h4
  refine ⟨main g rfl rfl, ?_⟩
  intro r0 c0 h1 h2 h3 h4
  have hiff := main (occupy g r0 c0) rfl rfl
  by_contra hne
  have htrue : state_is_free (occupy g r0 c0) s = true := by
    cases hfree : state_is_free (occupy g r0 c0) s
    · exact absurd hfree hne
    · rfl
  have := (hiff.mp htrue) r0 c0 h1 h2 h3 h4
  simp [occupy] at this

/-- Witness for C4 on a concrete 30-by-30 all-free grid at point (15, 15):
the free test succeeds, and occupying the in-window cell (12, 17) makes it
fail. -/
theorem C4_state_is_free_window_witness :
    state_is_free ⟨30, 30, fun _ _ => 0⟩ ⟨15, 15, none, []⟩ = true ∧
    state_is_free (occupy ⟨30, 30, fun _ _ => 0⟩ 12 17) ⟨15, 15, none, []⟩ = false := by
  have h := C4_state_is_free_window ⟨30, 30, fun _ _ => 0⟩ ⟨15, 15, none, []⟩
    (by decide) (by decide) (by decide) (by decide)
  exact ⟨h.1.mpr (fun _ _ _ _ _ _ => rfl),
    h.2 12 17 (by decide) (by decide) (by decide) (by decide)⟩

/-- C9. On any grid with more than 10 rows and more than 10 columns,
`state_is_free` returns true for every in-range state with `x < 5` or
`y < 5`, whatever the occupancy values: the negative slice start wraps past
the slice stop, the selected window is empty, and `numpy`'s `.all()` on an
empty selection is vacuously true. -/
theorem C9_state_is_free_vacuous_near_origin (g : Grid) (s : State)
    (hrows : 10 < g.rows) (hcols : 10 < g.cols)
    (hx0 : 0 ≤ s.x) (hy0 : 0 ≤ s.y) (h : s.x < 5 ∨ s.y < 5) :
    state_is_free g s = true := by
  rcases h with h | h
  · have hempty : pySlice (s.x - 5) (s.x + 5) g.cols = [] :=
      pySlice_empty_low hx0 h (by omega)
    unfold state_is_free
    rw [hempty]
    simp
  · have hempty : pySlice (s.y - 5) (s.y + 5) g.rows = [] :=
      pySlice_empty_low hy0 h (by omega)
    unfold state_is_free
    rw [hempty]
    simp

/-- Witness for C9: on an 11-by-11 grid where every cell is occupied, the
point (3, 8) is still reported free. -/
theorem C9_state_is_free_vacuous_near_origin_witness :
    state_is_free ⟨11, 11, fun _ _ => 1⟩ ⟨3, 8, none, []⟩ = true :=
  C9_state_is_free_vacuous_near_origin ⟨11, 11, fun _ _ => 1⟩ ⟨3, 8, none, []⟩
    (by decide) (by decide) (by decide) (by decide) (Or.inl (by decide))

/-! ## The path extractor (C5) -/

theorem follow_parent_pointers_aux_append (arena : List State) :
    ∀ (fuel : ℕ) (c : Option Nat) (p q : List Nat),
      follow_parent_pointers_aux arena fuel c (p ++ q) =
        (follow_parent_pointers_aux arena fuel c q).map (fun l => l ++ p.reverse) := by
  intro fuel
  induction fuel with
  | zero =>
    intro c p q
    cases c with
    | none => simp [follow_parent_pointers_aux]
    | some curr => simp [follow_parent_pointers_aux]
  | succ n ih =>
    intro c p q
    cases c with
    | none => simp [follow_parent_pointers_aux]
    | some curr =>
      simp only [follow_parent_pointers_aux]
      cases harena : arena[curr]? with
      | none => rfl
      | some node =>
        show follow_parent_pointers_aux arena n node.parent (p ++ q ++ [curr]) =
          Option.map (fun l => l ++ p.reverse)
            (follow_parent_pointers_aux arena n node.parent (q ++ [curr]))
        rw [show p ++ q ++ [curr] = p ++ (q ++ [curr]) from by simp, ih]

/-- C5 (amended). The path extractor returns the once-collected reversed
parent chain with one extra copy of the terminal state appended at the end:
`path` is initialized to `[state]` and the loop appends `state` again before
walking to the parent, so after reversal the terminal appears twice as the
last two elements. -/
theorem C5_follow_parent_pointers_duplicates_terminal
    (arena : List State) (state : Nat) :
    follow_parent_pointers arena state =
      (follow_parent_pointers_once arena state).map (fun l => l ++ [state]) := by
  unfold follow_parent_pointers follow_parent_pointers_once
  have h := follow_parent_pointers_aux_append arena (arena.length + 1)
    (some state) [state] []
  simpa using h

/-- Counterexample for C5 as stated: in the two-node arena with node 1
parented at root 0, the extractor returns `[0, 1, 1]` — the terminal node 1
is collected twice — and not the once-collected chain `[0, 1]`. -/
theorem C5_follow_parent_pointers_counterexample :
    follow_parent_pointers [⟨0, 0, none, [1]⟩, ⟨1, 0, some 0, []⟩] 1 = some [0, 1, 1] ∧
    ([0, 1, 1] : List Nat) ≠ [0, 1] := by
  constructor
  · decide
  · decide

/-! ## Steering correctness (C2) -/

theorem int_trunc_intCast (n : ℤ) : int_trunc (n : ℝ) = n := by
  unfold int_trunc
  split <;> simp

theorem abs_int_trunc_sub_lt (v : ℝ) : |((int_trunc v : ℤ) : ℝ) - v| < 1 := by
  unfold int_trunc
  split
  · have h1 := Int.floor_le v
    have h2 := Int.lt_floor_add_one v
    rw [abs_lt]
    constructor <;> linarith
  · have h1 := Int.le_ceil v
    have h2 := Int.ceil_lt_add_one v
    rw [abs_lt]
    constructor <;> linarith

theorem euclidean_distance_comm (s t : State) :
    euclidean_distance s t = euclidean_distance t s := by
  unfold euclidean_distance
  congr 1
  push_cast
  ring

theorem cos_sin_arctan_pos (a b : ℝ) (ha : 0 < a) :
    Real.cos (Real.arctan (b / a)) = a / Real.sqrt (a ^ 2 + b ^ 2) ∧
    Real.sin (Real.arctan (b / a)) = b / Real.sqrt (a ^ 2 + b ^ 2) := by
  have hsq : 0 < a ^ 2 + b ^ 2 := by positivity
  have hd : 0 < Real.sqrt (a ^ 2 + b ^ 2) := Real.sqrt_pos.mpr hsq
  have key : Real.sqrt (1 + (b / a) ^ 2) = Real.sqrt (a ^ 2 + b ^ 2) / a := by
    have h1 : 1 + (b / a) ^ 2 = (a ^ 2 + b ^ 2) / a ^ 2 := by
      field_simp
    rw [h1, Real.sqrt_div (by positivity), Real.sqrt_sq ha.le]
  constructor
  · rw [Real.cos_arctan, key, one_div_div]
  · rw [Real.sin_arctan, key, div_div_div_eq, mul_comm b a,
      mul_div_mul_left b (Real.sqrt (a ^ 2 + b ^ 2)) ha.ne']

theorem cos_sin_pi_sub_arctan (a b : ℝ) (ha : a < 0) :
    Real.cos (Real.pi - Real.arctan (b / -a)) = a / Real.sqrt (a ^ 2 + b ^ 2) ∧
    Real.sin (Real.pi - Real.arctan (b / -a)) = b / Real.sqrt (a ^ 2 + b ^ 2) := by
  have h := cos_sin_arctan_pos (-a) b (by linarith)
  rw [show (-a) ^ 2 = a ^ 2 from by ring] at h
  rw [Real.cos_pi_sub, Real.sin_pi_sub, h.1, h.2]
  constructor
  · ring
  · rfl

theorem cos_sin_neg_pi_sub_arctan (a b : ℝ) (ha : a < 0) :
    Real.cos (-Real.pi - Real.arctan (b / -a)) = a / Real.sqrt (a ^ 2 + b ^ 2) ∧
    Real.sin (-Real.pi - Real.arctan (b / -a)) = b / Real.sqrt (a ^ 2 + b ^ 2) := by
  have h := cos_sin_arctan_pos (-a) b (by linarith)
  rw [show (-a) ^ 2 = a ^ 2 from by ring] at h
  have hc : Real.cos (-Real.pi - Real.arctan (b / -a)) =
      -Real.cos (Real.arctan (b / -a)) := by
    rw [show -Real.pi - Real.arctan (b / -a) = -(Real.pi + Real.arctan (b / -a)) from
      by ring, Real.cos_neg, Real.cos_add]
    simp [Real.cos_pi, Real.sin_pi]
  have hs : Real.sin (-Real.pi - Real.arctan (b / -a)) =
      Real.sin (Real.arctan (b / -a)) := by
    rw [show -Real.pi - Real.arctan (b / -a) = -(Real.pi + Real.arctan (b / -a)) from
      by ring, Real.sin_neg, Real.sin_add]
    simp [Real.cos_pi, Real.sin_pi]
  rw [hc, hs, h.1, h.2]
  constructor
  · ring
  · rfl

theorem abs_int_trunc_sub_lt_of_eq (A t : ℝ) (heq : A = t) :
    |((int_trunc A : ℤ) : ℝ) - t| < 1 :=
  heq ▸ abs_int_trunc_sub_lt A

theorem abs_sub_int_trunc_flip (A t : ℝ) (h : ℤ) (heq : A = (h : ℝ) - t) :
    |(((h - int_trunc A) : ℤ) : ℝ) - t| < 1 := by
  have hb := abs_int_trunc_sub_lt A
  have hkey : (((h - int_trunc A) : ℤ) : ℝ) - t = A - ((int_trunc A : ℤ) : ℝ) := by
    push_cast
    rw [heq]
    ring
  rw [hkey, abs_sub_comm]
  exact hb

/-- Closed form of `steer_algorithm` in the general (`dx != 0`) case: the
quadrant-corrected trigonometry collapses to moving `max_radius * dx / dist`
horizontally and (in the flipped frame) `max_radius * (y1 - y2) / dist`
vertically, followed by truncation and un-flipping. -/
theorem steer_algorithm_eq_of_dx_ne (s1 s2 : State) (h : ℤ) (r : ℝ)
    (hdx : ¬ s2.x - s1.x = 0) :
    steer_algorithm s1 s2 h r =
      (int_trunc ((s1.x : ℝ) + r * ((s2.x : ℝ) - (s1.x : ℝ)) / euclidean_distance s1 s2),
       h - int_trunc (((h - s1.y : ℤ) : ℝ) +
         r * ((s1.y : ℝ) - (s2.y : ℝ)) / euclidean_distance s1 s2)) := by
  have hdist : euclidean_distance s1 s2 =
      Real.sqrt (((s2.x : ℝ) - s1.x) ^ 2 + ((s1.y : ℝ) - s2.y) ^ 2) := by
    unfold euclidean_distance
    push_cast
    congr 1
    ring
  have hbcast : ((h - s2.y - (h - s1.y) : ℤ) : ℝ) = (s1.y : ℝ) - (s2.y : ℝ) := by
    push_cast
    ring
  have hacast : ((-(s2.x - s1.x) : ℤ) : ℝ) = -((s2.x : ℝ) - (s1.x : ℝ)) := by
    push_cast
    ring
  have hdcast : ((s2.x - s1.x : ℤ) : ℝ) = (s2.x : ℝ) - (s1.x : ℝ) := by
    push_cast
    ring
  rcases lt_trichotomy (s2.x - s1.x) 0 with hlt | heq | hgt
  · have hltR : (s2.x : ℝ) - (s1.x : ℝ) < 0 := by
      rw [← hdcast]
      exact_mod_cast hlt
    rcases lt_or_le (h - s2.y - (h - s1.y)) 0 with hdy | hdy
    · simp only [steer_algorithm, if_neg hdx, if_pos hlt, if_pos hdy]
      have hcos := (cos_sin_neg_pi_sub_arctan ((s2.x : ℝ) - s1.x)
        ((s1.y : ℝ) - s2.y) hltR).1
      have hsin := (cos_sin_neg_pi_sub_arctan ((s2.x : ℝ) - s1.x)
        ((s1.y : ℝ) - s2.y) hltR).2
      rw [hbcast, hacast, hcos, hsin, hdist]
      simp only [Prod.mk.injEq]
      exact ⟨congrArg int_trunc (by ring),
        congrArg (fun z : ℤ => h - z) (congrArg int_trunc (by ring))⟩
    · simp only [steer_algorithm, if_neg hdx, if_pos hlt, if_neg (not_lt.mpr hdy)]
      have hcos := (cos_sin_pi_sub_arctan ((s2.x : ℝ) - s1.x)
        ((s1.y : ℝ) - s2.y) hltR).1
      have hsin := (cos_sin_pi_sub_arctan ((s2.x : ℝ) - s1.x)
        ((s1.y : ℝ) - s2.y) hltR).2
      rw [hbcast, hacast, hcos, hsin, hdist]
      simp only [Prod.mk.injEq]
      exact ⟨congrArg int_trunc (by ring),
        congrArg (fun z : ℤ => h - z) (congrArg int_trunc (by ring))⟩
  · exact absurd heq hdx
  · have hgtR : 0 < (s2.x : ℝ) - (s1.x : ℝ) := by
      rw [← hdcast]
      exact_mod_cast hgt
    simp only [steer_algorithm, if_neg hdx, if_neg (by omega : ¬ s2.x - s1.x < 0)]
    have hcos := (cos_sin_arctan_pos ((s2.x : ℝ) - s1.x)
      ((s1.y : ℝ) - s2.y) hgtR).1
    have hsin := (cos_sin_arctan_pos ((s2.x : ℝ) - s1.x)
      ((s1.y : ℝ) - s2.y) hgtR).2
    rw [hbcast, hdcast, hcos, hsin, hdist]
    simp only [Prod.mk.injEq]
    exact ⟨congrArg int_trunc (by ring),
      congrArg (fun z : ℤ => h - z) (congrArg int_trunc (by ring))⟩

/-- In the far case (called with distinct endpoints), each coordinate returned
by `steer_algorithm` is within one unit (strictly) of the exact point at
distance `max_radius` from `s1` on the ray from `s1` through `s2`, the row
flip and the quadrant correction notwithstanding; the gap is the integer
truncation only. -/
theorem steer_algorithm_near_ray (s1 s2 : State) (h : ℤ) (r : ℝ)
    (hne : ¬(s2.x - s1.x = 0 ∧ s2.y - s1.y = 0)) :
    |(((steer_algorithm s1 s2 h r).1 : ℤ) : ℝ) -
        ((s1.x : ℝ) + r * ((s2.x : ℝ) - (s1.x : ℝ)) / euclidean_distance s1 s2)| < 1 ∧
    |(((steer_algorithm s1 s2 h r).2 : ℤ) : ℝ) -
        ((s1.y : ℝ) + r * ((s2.y : ℝ) - (s1.y : ℝ)) / euclidean_distance s1 s2)| < 1 := by
  by_cases hdx : s2.x - s1.x = 0
  · -- vertical case: dx == 0
    have hx2 : s2.x = s1.x := by omega
    have hxR : (s2.x : ℝ) = (s1.x : ℝ) := by exact_mod_cast hx2
    have hdy : s2.y - s1.y ≠ 0 := fun hc => hne ⟨hdx, hc⟩
    have hDabs : euclidean_distance s1 s2 = |(s2.y : ℝ) - (s1.y : ℝ)| := by
      unfold euclidean_distance
      push_cast
      rw [hxR, sub_self]
      rw [show ((0 : ℝ)) ^ 2 + ((s2.y : ℝ) - s1.y) ^ 2 = ((s2.y : ℝ) - s1.y) ^ 2 from
        by ring]
      exact Real.sqrt_sq_eq_abs _
    simp only [steer_algorithm, if_pos hdx]
    constructor
    · rw [hxR, sub_self, mul_zero, zero_div, add_zero]
      simp
    · apply abs_int_trunc_sub_lt_of_eq
      rcases lt_or_gt_of_ne hdy with hneg | hpos
      · have hsgn : Int.sign (s2.y - s1.y) = -1 := Int.sign_eq_neg_one_of_neg hneg
        have hnegR : (s2.y : ℝ) - (s1.y : ℝ) < 0 := by
          have h0 : ((s2.y - s1.y : ℤ) : ℝ) < 0 := by exact_mod_cast hneg
          push_cast at h0
          linarith
        rw [hsgn, hDabs, abs_of_neg hnegR]
        have hz2 : (s1.y : ℝ) - (s2.y : ℝ) ≠ 0 := by linarith
        push_cast
        field_simp [hz2]
        try ring
      · have hsgn : Int.sign (s2.y - s1.y) = 1 := Int.sign_eq_one_of_pos hpos
        have hposR : 0 < (s2.y : ℝ) - (s1.y : ℝ) := by
          have h0 : (0 : ℝ) < ((s2.y - s1.y : ℤ) : ℝ) := by exact_mod_cast hpos
          push_cast at h0
          linarith
        rw [hsgn, hDabs, abs_of_pos hposR]
        have hz : (s2.y : ℝ) - (s1.y : ℝ) ≠ 0 := by linarith
        push_cast
        field_simp [hz]
        try ring
  · rw [steer_algorithm_eq_of_dx_ne s1 s2 h r hdx]
    constructor
    · exact abs_int_trunc_sub_lt _
    · apply abs_sub_int_trunc_flip
      push_cast
      ring

theorem sqrt_sixteen_hundred : Real.sqrt 1600 = 40 := by
  rw [show (1600 : ℝ) = 40 ^ 2 from by norm_num]
  exact Real.sqrt_sq (by norm_num)

/-- C2. Steering correctness of `steer_towards`: within `max_radius` the
result is exactly the coordinates of the target; beyond it, the returned
integer point is within one unit per coordinate (strictly, from the
truncation) of the exact point `from + (r / dist) * (to - from)`, which lies
on the ray from `from` through `to` (positive multiple of the direction) at
distance exactly `r` from `from`; and the two vertical examples
`(50,50) -> (50,10)` and `(50,50) -> (50,90)` with radius 20 give `(50,30)`
and `(50,70)` on any world. -/
theorem C2_steer_towards_correct :
    (∀ (g : Grid) (s_nearest s_rand : State) (r : ℝ), 0 < r →
      (euclidean_distance s_rand s_nearest ≤ r →
        steer_towards g s_nearest s_rand r = (s_rand.x, s_rand.y)) ∧
      (r < euclidean_distance s_rand s_nearest →
        0 < r / euclidean_distance s_nearest s_rand ∧
        Real.sqrt ((r * ((s_rand.x : ℝ) - s_nearest.x) /
              euclidean_distance s_nearest s_rand) ^ 2 +
            (r * ((s_rand.y : ℝ) - s_nearest.y) /
              euclidean_distance s_nearest s_rand) ^ 2) = r ∧
        |(((steer_towards g s_nearest s_rand r).1 : ℤ) : ℝ) -
            ((s_nearest.x : ℝ) + r * ((s_rand.x : ℝ) - s_nearest.x) /
              euclidean_distance s_nearest s_rand)| < 1 ∧
        |(((steer_towards g s_nearest s_rand r).2 : ℤ) : ℝ) -
            ((s_nearest.y : ℝ) + r * ((s_rand.y : ℝ) - s_nearest.y) /
              euclidean_distance s_nearest s_rand)| < 1)) ∧
    (∀ g : Grid, steer_towards g ⟨50, 50, none, []⟩ ⟨50, 10, none, []⟩ 20 = (50, 30)) ∧
    (∀ g : Grid, steer_towards g ⟨50, 50, none, []⟩ ⟨50, 90, none, []⟩ 20 = (50, 70)) := by
  refine ⟨?_, ?_, ?_⟩
  · intro g s_nearest s_rand r hr
    constructor
    · intro hle
      unfold steer_towards
      rw [if_pos hle]
    · intro hgt
      have hcomm : euclidean_distance s_rand s_nearest =
          euclidean_distance s_nearest s_rand := euclidean_distance_comm _ _
      have hD : 0 < euclidean_distance s_nearest s_rand := by
        rw [← hcomm]
        exact lt_trans hr hgt
      have hne : ¬(s_rand.x - s_nearest.x = 0 ∧ s_rand.y - s_nearest.y = 0) := by
        rintro ⟨h1, h2⟩
        unfold euclidean_distance at hD
        rw [h1, h2] at hD
        simp at hD
      have hsteer : steer_towards g s_nearest s_rand r =
          steer_algorithm s_nearest s_rand (g.rows : ℤ) r := by
        unfold steer_towards
        rw [if_neg (not_le.mpr hgt)]
      have hray := steer_algorithm_near_ray s_nearest s_rand (g.rows : ℤ) r hne
      refine ⟨div_pos hr hD, ?_, ?_, ?_⟩
      · have hDsq : euclidean_distance s_nearest s_rand ^ 2 =
            ((s_rand.x : ℝ) - s_nearest.x) ^ 2 + ((s_rand.y : ℝ) - s_nearest.y) ^ 2 := by
          unfold euclidean_distance
          rw [Real.sq_sqrt (by positivity)]
          push_cast
          ring
        have hsum : (r * ((s_rand.x : ℝ) - s_nearest.x) /
              euclidean_distance s_nearest s_rand) ^ 2 +
            (r * ((s_rand.y : ℝ) - s_nearest.y) /
              euclidean_distance s_nearest s_rand) ^ 2 = r ^ 2 := by
          field_simp
          rw [hDsq]
          ring
        rw [hsum]
        exact Real.sqrt_sq hr.le
      · rw [hsteer]
        exact hray.1
      · rw [hsteer]
        exact hray.2
  · intro g
    have hfar : ¬ euclidean_distance ⟨50, 10, none, []⟩ ⟨50, 50, none, []⟩ ≤ 20 := by
      unfold euclidean_distance
      norm_num [sqrt_sixteen_hundred]
    unfold steer_towards
    rw [if_neg hfar]
    simp only [steer_algorithm]
    norm_num
    rw [show Int.sign (40 : ℤ) = 1 from by decide]
    push_cast
    ring_nf
    rw [show (30 : ℝ) = ((30 : ℤ) : ℝ) from by norm_num, int_trunc_intCast]
  · intro g
    have hfar : ¬ euclidean_distance ⟨50, 90, none, []⟩ ⟨50, 50, none, []⟩ ≤ 20 := by
      unfold euclidean_distance
      norm_num [sqrt_sixteen_hundred]
    unfold steer_towards
    rw [if_neg hfar]
    simp only [steer_algorithm]
    norm_num
    rw [show Int.sign (40 : ℤ) = 1 from by decide]
    push_cast
    ring_nf
    rw [show (70 : ℝ) = ((70 : ℤ) : ℝ) from by norm_num, int_trunc_intCast]

/-- Witness for C2: steering from (0,0) toward (3,4) (distance 5) with
radius 5 returns the target exactly. -/
theorem C2_steer_towards_correct_witness :
    steer_towards ⟨30, 30, fun _ _ => 0⟩ ⟨0, 0, none, []⟩ ⟨3, 4, none, []⟩ 5 = (3, 4) := by
  apply (C2_steer_towards_correct.1 ⟨30, 30, fun _ _ => 0⟩ ⟨0, 0, none, []⟩
    ⟨3, 4, none, []⟩ 5 (by norm_num)).1
  unfold euclidean_distance
  norm_num
  rw [show ((25 : ℝ)) = 5 ^ 2 from by norm_num, Real.sqrt_sq (by norm_num : (0:ℝ) ≤ 5)]

/-! ## The segment collision checker (C3) -/

/-- C3. Under the `assert`ed precondition that `s_from` is free,
`path_is_obstacle_free` returns normally, with `True` exactly when `s_to` is
free and each of the 10 interpolated samples at fractions `0/10 .. 9/10` of
the segment is free, and with `False` exactly when `s_to` is not free
(immediate rejection) or some interpolated sample is not free. -/
theorem C3_path_is_obstacle_free_characterization (g : Grid) (s_from s_to : State)
    (hfrom : state_is_free g s_from = true) :
    (path_is_obstacle_free g s_from s_to = some true ↔
      (state_is_free g s_to = true ∧
        ∀ i : ℕ, i < 10 → state_is_free g (interpolated_sample g s_from s_to i) = true)) ∧
    (path_is_obstacle_free g s_from s_to = some false ↔
      (state_is_free g s_to = false ∨
        ∃ i : ℕ, i < 10 ∧ state_is_free g (interpolated_sample g s_from s_to i) = false)) := by
  unfold path_is_obstacle_free interpolated_sample
  rw [hfrom]
  simp only [Bool.true_eq_false, if_false]
  cases hto : state_is_free g s_to with
  | false =>
    simp [hto]
  | true =>
    simp [hto, List.all_eq_true, List.all_eq_false, List.mem_range]

theorem steer_algorithm_self (s1 s2 : State) (h : ℤ) (r : ℝ)
    (hx : s2.x = s1.x) (hy : s2.y = s1.y) :
    steer_algorithm s1 s2 h r = (s1.x, s1.y) := by
  simp only [steer_algorithm]
  rw [if_pos (by omega : s2.x - s1.x = 0), show s2.y - s1.y = 0 from by omega]
  norm_num
  exact int_trunc_intCast s1.y

/-- Witness for C3: on the all-free 30-by-30 grid, the degenerate segment
from (15,15) to itself passes the collision check. -/
theorem C3_path_is_obstacle_free_characterization_witness :
    path_is_obstacle_free ⟨30, 30, fun _ _ => 0⟩ ⟨15, 15, none, []⟩ ⟨15, 15, none, []⟩ =
      some true := by
  have hsample : ∀ i : ℕ,
      interpolated_sample ⟨30, 30, fun _ _ => 0⟩ ⟨15, 15, none, []⟩ ⟨15, 15, none, []⟩ i =
        ⟨15, 15, none, []⟩ := by
    intro i
    simp only [interpolated_sample]
    rw [steer_algorithm_self _ _ _ _ rfl rfl]
  exact (C3_path_is_obstacle_free_characterization ⟨30, 30, fun _ _ => 0⟩
    ⟨15, 15, none, []⟩ ⟨15, 15, none, []⟩ (by decide)).1.mpr
    ⟨by decide, fun i _ => by rw [hsample i]; decide⟩

/-! ## The tree growth engine: basic facts about `plan_loop` -/

theorem getElem?_append_lt {α : Type} (l₁ l₂ : List α) {n : ℕ} (h : n < l₁.length) :
    (l₁ ++ l₂)[n]? = l₁[n]? := by
  rw [List.getElem?_append, if_pos h]

theorem lt_length_of_getElem? {α : Type} {l : List α} {i : ℕ} {a : α}
    (h : l[i]? = some a) : i < l.length :=
  (List.getElem?_eq_some.mp h).1

/-- Every normal return of the loop carries `ret = [start_id]` (the source's
final `return [start_state]`) and a step count at least the entry count. -/
theorem plan_loop_basic (g : Grid) (s d : Nat) (mr dr : ℝ) (rng : ℕ → ℤ × ℤ) :
    ∀ (fuel sc : ℕ) (arena : List State) (tree : List Nat) (r : PlanResult),
      plan_loop g s d mr dr rng fuel sc arena tree = some r →
      r.ret = [s] ∧ sc ≤ r.step_count := by
  intro fuel
  induction fuel with
  | zero =>
    intro sc arena tree r h
    simp only [plan_loop] at h
    cases h
    exact ⟨rfl, le_refl _⟩
  | succ n ih =>
    intro sc arena tree r h
    simp only [plan_loop] at h
    iterate 8 (all_goals try split at h)
    all_goals first
      | exact Option.noConfusion h
      | (cases h; exact ⟨rfl, Nat.le_succ sc⟩)
      | (rcases ih _ _ _ _ h with ⟨h1, h2⟩; exact ⟨h1, by omega⟩)

theorem foldl_option_invariant {α β : Type} (f : Option β → α → Option β)
    (P : α → Prop) (R : β → Prop)
    (hstep : ∀ acc x, (∀ b, acc = some b → R b) → P x → ∀ b, f acc x = some b → R b) :
    ∀ (l : List α) (acc : Option β), (∀ x ∈ l, P x) → (∀ b, acc = some b → R b) →
      ∀ b, l.foldl f acc = some b → R b := by
  intro l
  induction l with
  | nil =>
    intro acc hP hacc b hb
    exact hacc b hb
  | cons x xs ih =>
    intro acc hP hacc b hb
    exact ih (f acc x) (fun y hy => hP y (List.mem_cons_of_mem _ hy))
      (hstep acc x hacc (hP x (List.mem_cons_self _ _))) b hb

/-- The nearest-node search only ever returns a member of the scanned list. -/
theorem find_closest_state_mem (arena : List State) (tree : List Nat) (st : State)
    (id : Nat) (h : find_closest_state arena tree st = some id) : id ∈ tree := by
  unfold find_closest_state at h
  rcases Option.map_eq_some'.mp h with ⟨pr, hfold, hfst⟩
  subst hfst
  refine foldl_option_invariant _ (· ∈ tree) (fun pr : Nat × ℝ => pr.1 ∈ tree)
    ?_ tree none (fun x hx => hx) (by intro b hb; exact absurd hb (by simp)) pr hfold
  intro acc x hacc hx b hb
  dsimp only at hb
  rcases harena : arena[x]? with _ | node
  · rw [harena] at hb
    exact hacc b hb
  · rw [harena] at hb
    rcases acc with _ | ⟨p, md⟩
    · cases hb
      exact hx
    · dsimp only at hb
      split at hb
      · cases hb
        exact hx
      · exact hacc b hb

theorem tree_add_eq_or (arena : List State) (tree : List Nat) (n : Nat) :
    tree_add arena tree n = tree ∨ tree_add arena tree n = tree ++ [n] := by
  unfold tree_add
  split
  · left
    rfl
  · split
    · left
      rfl
    · right
      rfl

/-- Exact growth discipline of the set insertion `tree_nodes.add(s_new)`:
if a member with the same coordinates is already present the set is returned
unchanged, otherwise the new id is appended (growing the set by exactly one). -/
theorem tree_add_spec (arena : List State) (tree : List Nat) (n : Nat) (s : State)
    (hget : arena[n]? = some s) :
    ((∃ id ∈ tree, ∃ t : State, arena[id]? = some t ∧ t.x = s.x ∧ t.y = s.y) →
        tree_add arena tree n = tree) ∧
    (¬(∃ id ∈ tree, ∃ t : State, arena[id]? = some t ∧ t.x = s.x ∧ t.y = s.y) →
        tree_add arena tree n = tree ++ [n] ∧
        (tree_add arena tree n).length = tree.length + 1) := by
  have hany : (tree.any fun id =>
      match arena[id]? with
      | none => false
      | some t => t.x == s.x && t.y == s.y) = true ↔
      (∃ id ∈ tree, ∃ t : State, arena[id]? = some t ∧ t.x = s.x ∧ t.y = s.y) := by
    rw [List.any_eq_true]
    constructor
    · rintro ⟨id, hid, hp⟩
      rcases hmem : arena[id]? with _ | t
      · rw [hmem] at hp
        cases hp
      · rw [hmem] at hp
        simp only [Bool.and_eq_true, beq_iff_eq] at hp
        exact ⟨id, hid, t, hmem, hp.1, hp.2⟩
    · rintro ⟨id, hid, t, hmem, hx, hy⟩
      refine ⟨id, hid, ?_⟩
      rw [hmem]
      simp [hx, hy]
  simp only [tree_add, hget]
  constructor
  · intro hex
    rw [if_pos (hany.mpr hex)]
  · intro hnex
    have : (tree.any fun id =>
        match arena[id]? with
        | none => false
        | some t => t.x == s.x && t.y == s.y) = false := by
      cases hb : (tree.any fun id =>
          match arena[id]? with
          | none => false
          | some t => t.x == s.x && t.y == s.y)
      · rfl
      · exact absurd (hany.mp hb) hnex
    rw [if_neg (by rw [this]; exact Bool.false_ne_true)]
    simp

/-- One successful insertion preserves tree well-formedness: the new node is
appended to the arena, the nearest node receives it as a child (its parent
link unchanged), and the set gains the new id unless its coordinates are
already present. -/
theorem TreeWF_step (arena : List State) (tree : List Nat) (nid : Nat)
    (s_near s_new : State)
    (hmem : nid ∈ tree)
    (hget : arena[nid]? = some s_near)
    (hparent : s_new.parent = some nid)
    (hWF : TreeWF arena tree) :
    TreeWF ((arena ++ [s_new]).set nid { x := s_near.x, y := s_near.y, parent := s_near.parent, children := s_near.children ++ [arena.length] })
      (tree_add (arena ++ [s_new]) tree arena.length) := by
  have hnid_lt : nid < arena.length := lt_length_of_getElem? hget
  have hsub : ∀ q, q ∈ tree → q ∈ tree_add (arena ++ [s_new]) tree arena.length := by
    intro q hq
    rcases tree_add_eq_or (arena ++ [s_new]) tree arena.length with he | he <;> rw [he]
    · exact hq
    · exact List.mem_append_left _ hq
  intro id hid
  have hid' : id ∈ tree ∨ id = arena.length := by
    rcases tree_add_eq_or (arena ++ [s_new]) tree arena.length with he | he <;> rw [he] at hid
    · exact Or.inl hid
    · rcases List.mem_append.mp hid with hmm | hmm
      · exact Or.inl hmm
      · exact Or.inr (List.mem_singleton.mp hmm)
  rcases hid' with hid' | rfl
  · rcases hWF id hid' with ⟨nd, hnd, hpar⟩
    have hlt : id < arena.length := lt_length_of_getElem? hnd
    by_cases hne : id = nid
    · subst hne
      have hnds : nd = s_near := by
        rw [hget] at hnd
        exact (Option.some_inj.mp hnd).symm
      subst hnds
      refine ⟨{ x := nd.x, y := nd.y, parent := nd.parent, children := nd.children ++ [arena.length] }, ?_, ?_⟩
      · exact List.getElem?_set_self (by rw [List.length_append, List.length_singleton]; omega)
      · rcases hpar with hroot | ⟨p, hp1, hp2, hp3⟩
        · exact Or.inl hroot
        · exact Or.inr ⟨p, hsub p hp1, hp2, hp3⟩
    · refine ⟨nd, ?_, ?_⟩
      · rw [List.getElem?_set_ne (fun hc => hne hc.symm), getElem?_append_lt _ _ hlt]
        exact hnd
      · rcases hpar with hroot | ⟨p, hp1, hp2, hp3⟩
        · exact Or.inl hroot
        · exact Or.inr ⟨p, hsub p hp1, hp2, hp3⟩
  · refine ⟨s_new, ?_, Or.inr ⟨nid, hsub nid hmem, hnid_lt, hparent⟩⟩
    rw [List.getElem?_set_ne (by omega), List.getElem?_concat_length]

/-- Main invariant lemma for the planning loop: along every normal run the
arena only grows, the tree set only extends (never loses a member), it stays
well-formed and never contains the goal id, and the goal node's fields are
untouched unless the run succeeds, in which case its parent is set to the
last-inserted node, which lies within the goal radius of it. -/
theorem plan_loop_main (g : Grid) (s d : Nat) (mr dr : ℝ) (rng : ℕ → ℤ × ℤ)
    (d0 : State) :
    ∀ (fuel sc : ℕ) (arena : List State) (tree : List Nat) (r : PlanResult),
      arena[d]? = some d0 →
      (∀ id ∈ tree, id ≠ d) →
      TreeWF arena tree →
      plan_loop g s d mr dr rng fuel sc arena tree = some r →
      arena.length ≤ r.arena.length ∧
      (∃ t, r.tree_nodes = tree ++ t) ∧
      (∀ id ∈ r.tree_nodes, id ≠ d) ∧
      TreeWF r.arena r.tree_nodes ∧
      (r.success = false → r.arena[d]? = some d0) ∧
      (r.success = true →
        r.arena[d]? = some { x := d0.x, y := d0.y, parent := some (r.arena.length - 1), children := d0.children } ∧
        ∃ nn, r.arena[r.arena.length - 1]? = some nn ∧
          euclidean_distance nn d0 < dr) := by
  intro fuel
  induction fuel with
  | zero =>
    intro sc arena tree r hd htd hWF h
    simp only [plan_loop] at h
    cases h
    exact ⟨le_refl _, ⟨[], (List.append_nil tree).symm⟩, htd, hWF,
      fun _ => hd, fun hc => Bool.noConfusion hc⟩
  | succ n ih =>
    intro sc arena tree r hd htd hWF h
    have hd_lt : d < arena.length := lt_length_of_getElem? hd
    simp only [plan_loop] at h
    rcases hfc : find_closest_state arena tree (sample_state rng sc) with _ | nid
    · simp only [hfc] at h
      exact Option.noConfusion h
    simp only [hfc] at h
    rcases hget : arena[nid]? with _ | s_near
    · simp only [hget] at h
      exact Option.noConfusion h
    simp only [hget] at h
    have hnid_tree : nid ∈ tree := find_closest_state_mem _ _ _ _ hfc
    have hnid_ne_d : nid ≠ d := htd nid hnid_tree
    have hnid_lt : nid < arena.length := lt_length_of_getElem? hget
    rcases hpf : path_is_obstacle_free g s_near
        ⟨(steer_towards g s_near (sample_state rng sc) mr).1,
         (steer_towards g s_near (sample_state rng sc) mr).2, some nid, []⟩ with _ | b
    · simp only [hpf] at h
      exact Option.noConfusion h
    cases b with
    | false =>
      simp only [hpf] at h
      exact ih (sc + 1) arena tree r hd htd hWF h
    | true =>
      simp only [hpf] at h
      generalize hsnew : (⟨(steer_towards g s_near (sample_state rng sc) mr).1,
          (steer_towards g s_near (sample_state rng sc) mr).2, some nid, []⟩ : State) =
        s_new at h
      generalize ht1 : tree_add (arena ++ [s_new]) tree arena.length = tree1 at h
      generalize ha2 : (arena ++ [s_new]).set nid { x := s_near.x, y := s_near.y, parent := s_near.parent, children := s_near.children ++ [arena.length] } = arena2 at h
      have harena2_len : arena2.length = arena.length + 1 := by
        rw [← ha2, List.length_set, List.length_append]
        rfl
      have harena2_d : arena2[d]? = some d0 := by
        rw [← ha2, List.getElem?_set_ne hnid_ne_d, getElem?_append_lt _ _ hd_lt]
        exact hd
      have harena2_new : arena2[arena.length]? = some s_new := by
        rw [← ha2, List.getElem?_set_ne (by omega), List.getElem?_concat_length]
      have hWF2 : TreeWF arena2 tree1 := by
        rw [← ha2, ← ht1]
        exact TreeWF_step arena tree nid s_near s_new hnid_tree hget
          (by rw [← hsnew]) hWF
      have htd1 : ∀ id ∈ tree1, id ≠ d := by
        intro id hid
        rw [← ht1] at hid
        rcases tree_add_eq_or (arena ++ [s_new]) tree arena.length with he | he <;>
          rw [he] at hid
        · exact htd id hid
        · rcases List.mem_append.mp hid with hmm | hmm
          · exact htd id hmm
          · rw [List.mem_singleton.mp hmm]
            omega
      have ht1sub : ∃ t, tree1 = tree ++ t := by
        rw [← ht1]
        rcases tree_add_eq_or (arena ++ [s_new]) tree arena.length with he | he
        · exact ⟨[], by rw [he, List.append_nil]⟩
        · exact ⟨[arena.length], he⟩
      rw [harena2_d] at h
      simp only [] at h
      split at h
      · rename_i hdist
        rcases hfp : follow_parent_pointers
            (arena2.set d { x := d0.x, y := d0.y, parent := some arena.length, children := d0.children }) d with _ | p
        · rw [hfp] at h
          exact Option.noConfusion h
        · rw [hfp] at h
          cases h
          refine ⟨?_, ht1sub, htd1, ?_, fun hc => Bool.noConfusion hc, fun _ => ?_⟩
          · simp only [List.length_set]
            omega
          · intro id hid
            rcases hWF2 id hid with ⟨nd, hnd, hp⟩
            exact ⟨nd, by rw [List.getElem?_set_ne (Ne.symm (htd1 id hid))]; exact hnd, hp⟩
          · have hlen : ((arena2.set d { x := d0.x, y := d0.y, parent := some arena.length, children := d0.children }).length - 1) = arena.length := by
              rw [List.length_set]
              omega
            constructor
            · rw [hlen, List.getElem?_set_self (by omega)]
            · exact ⟨s_new, by
                rw [hlen, List.getElem?_set_ne (by omega)]
                exact harena2_new, hdist⟩
      · rcases ih (sc + 1) arena2 tree1 r harena2_d htd1 hWF2 h with
          ⟨hL, ⟨t', ht'⟩, hid', hWF', hfail, hsucc⟩
        refine ⟨by omega, ?_, hid', hWF', hfail, hsucc⟩
        rcases ht1sub with ⟨t0, ht0⟩
        exact ⟨t0 ++ t', by rw [ht', ht0, List.append_assoc]⟩

/-! ## A concrete run: start == goal at (15, 15), one iteration -/

theorem dist_1515_eq_zero :
    euclidean_distance (⟨15, 15, some 0, []⟩ : State) (⟨15, 15, none, []⟩ : State) = 0 := by
  unfold euclidean_distance
  norm_num

theorem steer_towards_1515 :
    steer_towards world30 (⟨15, 15, none, []⟩ : State) (⟨15, 15, none, []⟩ : State) 10 =
      (15, 15) := by
  unfold steer_towards
  rw [if_pos]
  have h0 : euclidean_distance (⟨15, 15, none, []⟩ : State) (⟨15, 15, none, []⟩ : State) = 0 := by
    unfold euclidean_distance
    norm_num
  rw [h0]
  norm_num

theorem path_free_1515 :
    path_is_obstacle_free world30 (⟨15, 15, none, []⟩ : State) (⟨15, 15, some 0, []⟩ : State) =
      some true := by
  unfold path_is_obstacle_free
  rw [show state_is_free world30 ⟨15, 15, none, []⟩ = true from by decide,
    show state_is_free world30 ⟨15, 15, some 0, []⟩ = true from by decide]
  simp only [Bool.true_eq_false, if_false]
  have hall : ((List.range 10).all fun i =>
      state_is_free world30
        ⟨(steer_algorithm ⟨15, 15, none, []⟩ ⟨15, 15, some 0, []⟩ (world30.rows : ℤ)
            ((i : ℝ) / 10 * euclidean_distance ⟨15, 15, none, []⟩ ⟨15, 15, some 0, []⟩)).1,
         (steer_algorithm ⟨15, 15, none, []⟩ ⟨15, 15, some 0, []⟩ (world30.rows : ℤ)
            ((i : ℝ) / 10 * euclidean_distance ⟨15, 15, none, []⟩ ⟨15, 15, some 0, []⟩)).2,
         none, []⟩) = true := by
    rw [List.all_eq_true]
    intro i hi
    have hsteer := steer_algorithm_self (⟨15, 15, none, []⟩ : State)
      (⟨15, 15, some 0, []⟩ : State) (world30.rows : ℤ)
      ((i : ℝ) / 10 * euclidean_distance ⟨15, 15, none, []⟩ ⟨15, 15, some 0, []⟩) rfl rfl
    simp only [hsteer]
    decide
  rw [hall]

theorem trace1_loop :
    plan_loop world30 0 1 10 5 rng15 1 0 arenaInit [0] = some trace1Res := by
  have hd5 : euclidean_distance (⟨15, 15, some 0, []⟩ : State) (⟨15, 15, none, []⟩ : State) <
      5 := by
    rw [dist_1515_eq_zero]
    norm_num
  simp [plan_loop, arenaInit, S15, rng15, sample_state, trace1Res, tree_add,
    find_closest_state, follow_parent_pointers, follow_parent_pointers_aux,
    steer_towards_1515, path_free_1515, hd5]

/-- The concrete run through `plan`: both endpoints are free, so the call
reaches the loop and the single iteration succeeds. -/
theorem trace1 :
    plan world30 arenaInit 0 1 1 10 5 rng15 = some trace1Res := by
  show (if state_is_free world30 S15 = false then none
    else if state_is_free world30 S15 = false then none
    else plan_loop world30 0 1 10 5 rng15 1 0 arenaInit [0]) = some trace1Res
  rw [show state_is_free world30 S15 = true from by decide]
  simp only [Bool.true_eq_false, if_false]
  exact trace1_loop

/-! ## Claim theorems about `plan` -/

theorem plan_to_loop {g : Grid} {arena0 : List State} {s d n : ℕ} {mr dr : ℝ}
    {rng : ℕ → ℤ × ℤ} {r : PlanResult}
    (h : plan g arena0 s d n mr dr rng = some r) :
    plan_loop g s d mr dr rng n 0 arena0 [s] = some r := by
  unfold plan at h
  rcases hs : arena0[s]? with _ | ss <;> rcases hd : arena0[d]? with _ | ds <;>
    simp only [hs, hd] at h
  all_goals try exact Option.noConfusion h
  split at h
  · exact Option.noConfusion h
  · split at h
    · exact Option.noConfusion h
    · exact h

theorem plan_loop_pos (g : Grid) (s d : Nat) (mr dr : ℝ) (rng : ℕ → ℤ × ℤ)
    (m sc : ℕ) (arena : List State) (tree : List Nat) (r : PlanResult)
    (h : plan_loop g s d mr dr rng (m + 1) sc arena tree = some r) :
    sc + 1 ≤ r.step_count := by
  simp only [plan_loop] at h
  iterate 8 (all_goals try split at h)
  all_goals first
    | exact Option.noConfusion h
    | (cases h; exact le_refl _)
    | exact (plan_loop_basic g s d mr dr rng _ _ _ _ _ h).2

/-- C6. Whenever `plan` returns after exhausting its budget without success,
the result is exactly the single-element plan `[start]`; in particular a call
with `max_num_steps = 0` on free endpoints returns `[start]` immediately (a
valid negative outcome, not an error). -/
theorem C6_plan_budget_exhausted (g : Grid) (arena0 : List State) (s d : Nat)
    (mr dr : ℝ) (rng : ℕ → ℤ × ℤ) :
    (∀ (n : ℕ) (r : PlanResult), plan g arena0 s d n mr dr rng = some r →
      r.success = false → r.ret = [s]) ∧
    (∀ ss ds : State, arena0[s]? = some ss → arena0[d]? = some ds →
      state_is_free g ss = true → state_is_free g ds = true →
      plan g arena0 s d 0 mr dr rng = some ⟨arena0, [s], [s], [s], false, 0⟩) := by
  constructor
  · intro n r h _
    exact (plan_loop_basic g s d mr dr rng n 0 arena0 [s] r (plan_to_loop h)).1
  · intro ss ds hs hd hfs hfd
    unfold plan
    simp only [hs, hd, hfs, Bool.true_eq_false, if_false, hfd]
    simp only [plan_loop]

/-- Witness for C6: a zero-iteration call on the concrete free world returns
the degenerate single-node result untouched. -/
theorem C6_plan_budget_exhausted_witness :
    plan world30 arenaInit 0 1 0 10 5 rng15 =
      some ⟨arenaInit, [0], [0], [0], false, 0⟩ :=
  (C6_plan_budget_exhausted world30 arenaInit 0 1 10 5 rng15).2 S15 S15 rfl rfl
    (by decide) (by decide)

/-- C1. Code-bug evidence: on the concrete run the goal is reached
(`success = true`) and the extracted start-to-goal path `[0, 2, 1, 1]` is
computed into the local variable `plan`, but the method still returns the
single-element `[start]` - the final statement of the source is
`return [start_state]`, contradicting its own docstring. -/
theorem C1_plan_returns_only_start_despite_success :
    plan world30 arenaInit 0 1 1 10 5 rng15 = some trace1Res ∧
    trace1Res.success = true ∧
    trace1Res.plan = [0, 2, 1, 1] ∧
    trace1Res.ret = [0] ∧
    trace1Res.ret ≠ trace1Res.plan :=
  ⟨trace1, rfl, rfl, rfl, by decide⟩

/-- Counterexample for C7 as stated: with start and goal at identical free
coordinates (ids 0 and 1, both at (15, 15)) and one allowed iteration, `plan`
does not short-circuit: it consumes a random sample (`step_count = 1`) and
returns `[0]`, not `[start, goal-as-terminal] = [0, 1]`. -/
theorem C7_no_short_circuit_counterexample :
    arenaInit[0]? = some S15 ∧ arenaInit[1]? = some S15 ∧
    plan world30 arenaInit 0 1 1 10 5 rng15 = some trace1Res ∧
    trace1Res.step_count = 1 ∧
    trace1Res.ret = [0] ∧
    trace1Res.ret ≠ [0, 1] :=
  ⟨rfl, rfl, trace1, rfl, rfl, by decide⟩

/-- C7 (amended). There is no start == goal short-circuit: every returning
call with a positive iteration budget draws at least one random sample (the
goal-radius test only runs after a node is inserted), and the returned value
is `[start]` regardless - also when start equals the goal. -/
theorem C7_plan_always_iterates (g : Grid) (arena0 : List State) (s d n : ℕ)
    (mr dr : ℝ) (rng : ℕ → ℤ × ℤ) (r : PlanResult) (ss ds : State)
    (hs : arena0[s]? = some ss) (hd : arena0[d]? = some ds)
    (hx : ss.x = ds.x) (hy : ss.y = ds.y) (hdr : 0 < dr) (hn : 1 ≤ n)
    (h : plan g arena0 s d n mr dr rng = some r) :
    1 ≤ r.step_count ∧ r.ret = [s] := by
  have hloop := plan_to_loop h
  refine ⟨?_, (plan_loop_basic g s d mr dr rng n 0 arena0 [s] r hloop).1⟩
  rcases n with _ | m
  · omega
  · exact plan_loop_pos g s d mr dr rng m 0 arena0 [s] r hloop

/-- Witness for C7 (amended) on the concrete run with start == goal. -/
theorem C7_plan_always_iterates_witness :
    1 ≤ trace1Res.step_count ∧ trace1Res.ret = [0] :=
  C7_plan_always_iterates world30 arenaInit 0 1 1 10 5 rng15 trace1Res S15 S15
    rfl rfl rfl rfl (by norm_num) (by norm_num) trace1

/-- C8 (amended). Tree invariants: an insertion into the coordinate-keyed
set leaves it unchanged when a member with the same coordinates exists and
otherwise appends exactly one member; and along every normal run of the
planning loop, starting from any well-formed tree state not containing the
goal id, the tree set only extends (no member is ever removed, so the count
is non-decreasing) and stays well-formed - every member is a live arena node
whose parent is either none or a member of the set with strictly smaller
allocation id, which makes every parent chain acyclic. -/
theorem C8_tree_invariants :
    (∀ (arena : List State) (tree : List Nat) (n : Nat) (s : State),
      arena[n]? = some s →
      ((∃ id ∈ tree, ∃ t : State, arena[id]? = some t ∧ t.x = s.x ∧ t.y = s.y) →
          tree_add arena tree n = tree) ∧
      (¬(∃ id ∈ tree, ∃ t : State, arena[id]? = some t ∧ t.x = s.x ∧ t.y = s.y) →
          tree_add arena tree n = tree ++ [n])) ∧
    (∀ (g : Grid) (s d : Nat) (mr dr : ℝ) (rng : ℕ → ℤ × ℤ) (fuel sc : ℕ)
        (arena : List State) (tree : List Nat) (r : PlanResult) (d0 : State),
      arena[d]? = some d0 → (∀ id ∈ tree, id ≠ d) → TreeWF arena tree →
      plan_loop g s d mr dr rng fuel sc arena tree = some r →
      (∃ t, r.tree_nodes = tree ++ t) ∧ TreeWF r.arena r.tree_nodes) := by
  constructor
  · intro arena tree n s hget
    exact ⟨(tree_add_spec arena tree n s hget).1,
      fun hn => ((tree_add_spec arena tree n s hget).2 hn).1⟩
  · intro g s d mr dr rng fuel sc arena tree r d0 hd htd hWF h
    rcases plan_loop_main g s d mr dr rng d0 fuel sc arena tree r hd htd hWF h with
      ⟨_, hpre, _, hWF', _, _⟩
    exact ⟨hpre, hWF'⟩

/-- Counterexample for C8 as stated: on the concrete run a successful
insertion occurred (the arena grew by one node and the goal was reached,
which happens only after `tree_nodes.add`), yet the set still has exactly one
member - the inserted node's coordinates (15, 15) coincide with the start's,
so coordinate equality deduplicates it and the insertion does not grow the
set. -/
theorem C8_insertion_no_growth_counterexample :
    plan world30 arenaInit 0 1 1 10 5 rng15 = some trace1Res ∧
    trace1Res.success = true ∧
    trace1Res.arena.length = arenaInit.length + 1 ∧
    trace1Res.tree_nodes.length = 1 :=
  ⟨trace1, rfl, rfl, rfl⟩

/-- Witness for C8 (amended): a duplicate-coordinate insertion leaves the
concrete set unchanged, and the concrete run ends in a well-formed tree. -/
theorem C8_tree_invariants_witness :
    tree_add [⟨5, 5, none, []⟩, ⟨5, 5, some 0, []⟩] [0] 1 = [0] ∧
    TreeWF trace1Res.arena trace1Res.tree_nodes := by
  constructor
  · exact (C8_tree_invariants.1 [⟨5, 5, none, []⟩, ⟨5, 5, some 0, []⟩] [0] 1
      ⟨5, 5, some 0, []⟩ rfl).1 ⟨0, by simp, ⟨5, 5, none, []⟩, rfl, rfl, rfl⟩
  · refine (C8_tree_invariants.2 world30 0 1 10 5 rng15 1 0 arenaInit [0]
      trace1Res S15 rfl ?_ ?_ trace1_loop).2
    · intro id hid
      simp at hid
      omega
    · intro id hid
      simp at hid
      subst hid
      exact ⟨S15, rfl, Or.inl rfl⟩

/-- C10. Frame effect of `plan` on the caller's goal state: if the run does
not succeed, the goal node is returned exactly as passed in (parent
included); if it succeeds, only its parent field is reassigned - to the node
inserted last, which lies within the goal radius - while its coordinates (and
children) are untouched. -/
theorem C10_plan_goal_mutation (g : Grid) (arena0 : List State) (s d n : ℕ)
    (mr dr : ℝ) (rng : ℕ → ℤ × ℤ) (r : PlanResult) (ss d0 : State)
    (hs : arena0[s]? = some ss) (hsp : ss.parent = none)
    (hd : arena0[d]? = some d0) (hsd : s ≠ d)
    (h : plan g arena0 s d n mr dr rng = some r) :
    (r.success = false → r.arena[d]? = some d0) ∧
    (r.success = true →
      r.arena[d]? = some { x := d0.x, y := d0.y, parent := some (r.arena.length - 1), children := d0.children } ∧
      ∃ nn, r.arena[r.arena.length - 1]? = some nn ∧
        euclidean_distance nn d0 < dr) := by
  have hloop := plan_to_loop h
  have htd : ∀ id ∈ [s], id ≠ d := by
    intro id hid
    simp at hid
    subst hid
    exact hsd
  have hWF : TreeWF arena0 [s] := by
    intro id hid
    simp at hid
    subst hid
    exact ⟨ss, hs, Or.inl hsp⟩
  rcases plan_loop_main g s d mr dr rng d0 n 0 arena0 [s] r hd htd hWF hloop with
    ⟨_, _, _, _, hfail, hsucc⟩
  exact ⟨hfail, hsucc⟩

/-- Witness for C10 on the concrete successful run: the goal object (id 1)
ends with parent pointing at the inserted node (id 2), coordinates intact. -/
theorem C10_plan_goal_mutation_witness :
    trace1Res.arena[1]? = some ⟨15, 15, some 2, []⟩ :=
  ((C10_plan_goal_mutation world30 arenaInit 0 1 1 10 5 rng15 trace1Res S15 S15
    rfl rfl rfl (by omega) trace1).2 rfl).1

end RRT
